import Mathlib

/-!
Verification of the recompose container orchestrator (github.com/jveski/recompose).

This file shallowly embeds the parts of the Go source that the checked claims
are about, and proves (or refutes) each claim against that embedding.

Conventions of the embedding:
* Bytes are `Nat` values below 256; byte strings are `List Nat`.
* 32-bit machine words are `Nat` with explicit reduction modulo 2^32.
* Go `time.Duration` (an `int64` of nanoseconds) is `Int`; Go integer
  division truncates toward zero, which is `Int.tdiv`.
* Go maps are association lists in which an insert removes the previous
  binding of the key; Go map iteration order is unspecified, so statements
  proved about iteration over these lists hold for the particular order the
  list records, and the claims settled here do not depend on the order.
* Fallible Go code is `Except`/`Option`; external effects (subprocesses,
  the filesystem) enter as explicit function parameters.

The repository snapshot contains two generations of several functions: a
legacy layout (package `common`, `agent/main.go`) and the current layout
(`internal/rpc`, `internal/concurrency`, `agent/podman.go`). Where the two
generations differ and a claim cites both, both are embedded, in namespaces
named after the source file.
-/

namespace Recompose

/-! ## 32-bit word arithmetic on `Nat` -/

/-- Mask of 32 one bits. -/
def mask32 : Nat := 4294967295

/-- Addition modulo 2^32. -/
def add32 (a b : Nat) : Nat := (a + b) % 4294967296

/-- Bitwise complement within 32 bits. -/
def not32 (a : Nat) : Nat := a ^^^ mask32

/-- Right rotation of a 32-bit word. -/
def rotr32 (n x : Nat) : Nat := ((x >>> n) ||| (x <<< (32 - n))) &&& mask32

/-- Left rotation of a 32-bit word. -/
def rotl32 (n x : Nat) : Nat := ((x <<< n) ||| (x >>> (32 - n))) &&& mask32

/-- Big-endian byte serialization of `v` into `n` bytes. -/
def beBytes (n v : Nat) : List Nat :=
  (List.range n).map fun i => (v >>> (8 * (n - 1 - i))) &&& 255

/-- Little-endian byte serialization of `v` into `n` bytes. -/
def leBytes (n v : Nat) : List Nat :=
  (List.range n).map fun i => (v >>> (8 * i)) &&& 255

/-- Big-endian assembly of 4-byte groups into 32-bit words. -/
def beWords : List Nat → List Nat
  | a :: b :: c :: d :: rest =>
      ((((a <<< 8) ||| b) <<< 8 ||| c) <<< 8 ||| d) :: beWords rest
  | _ => []

/-- Little-endian assembly of 4-byte groups into 32-bit words. -/
def leWords : List Nat → List Nat
  | a :: b :: c :: d :: rest =>
      (a ||| (b <<< 8) ||| (c <<< 16) ||| (d <<< 24)) :: leWords rest
  | _ => []

/-- Splits a word list into chunks of 16, with structural recursion on a
fuel bound so that the kernel can evaluate it (each step consumes at least
one element, so `ws.length` fuel suffices). -/
def chunks16Fuel : Nat → List Nat → List (List Nat)
  | 0, _ => []
  | _, [] => []
  | fuel + 1, w :: ws => (w :: ws).take 16 :: chunks16Fuel fuel ((w :: ws).drop 16)

/-- Splits a word list into chunks of 16 (one hash input block each). -/
def chunks16 (ws : List Nat) : List (List Nat) := chunks16Fuel ws.length ws

/-- Merkle–Damgård padding shared by MD5 and SHA-256: append a 0x80 byte and
zeros so the length is 56 mod 64, leaving room for the 8-byte bit length. -/
def mdPadZeros (len : Nat) : Nat := (119 - len % 64) % 64

/-! ## SHA-256 (models Go `crypto/sha256`, per FIPS 180-4) -/

/-- Round constants of SHA-256 (fractional parts of cube roots of the first
64 primes, FIPS 180-4 §4.2.2, written in decimal). -/
def sha256K : List Nat := [
  1116352408, 1899447441, 3049323471, 3921009573, 961987163, 1508970993,
  2453635748, 2870763221, 3624381080, 310598401, 607225278, 1426881987,
  1925078388, 2162078206, 2614888103, 3248222580, 3835390401, 4022224774,
  264347078, 604807628, 770255983, 1249150122, 1555081692, 1996064986,
  2554220882, 2821834349, 2952996808, 3210313671, 3336571891, 3584528711,
  113926993, 338241895, 666307205, 773529912, 1294757372, 1396182291,
  1695183700, 1986661051, 2177026350, 2456956037, 2730485921, 2820302411,
  3259730800, 3345764771, 3516065817, 3600352804, 4094571909, 275423344,
  430227734, 506948616, 659060556, 883997877, 958139571, 1322822218,
  1537002063, 1747873779, 1955562222, 2024104815, 2227730452, 2361852424,
  2428436474, 2756734187, 3204031479, 3329325298]

/-- Initial hash state of SHA-256. -/
def sha256H0 : List Nat :=
  [0x6a09e667, 0xbb67ae85, 0x3c6ef372, 0xa54ff53a, 0x510e527f, 0x9b05688c, 0x1f83d9ab, 0x5be0cd19]

/-- SHA-256 small sigma 0. -/
def ssig0 (x : Nat) : Nat := rotr32 7 x ^^^ rotr32 18 x ^^^ (x >>> 3)

/-- SHA-256 small sigma 1. -/
def ssig1 (x : Nat) : Nat := rotr32 17 x ^^^ rotr32 19 x ^^^ (x >>> 10)

/-- SHA-256 big sigma 0. -/
def bsig0 (x : Nat) : Nat := rotr32 2 x ^^^ rotr32 13 x ^^^ rotr32 22 x

/-- SHA-256 big sigma 1. -/
def bsig1 (x : Nat) : Nat := rotr32 6 x ^^^ rotr32 11 x ^^^ rotr32 25 x

/-- SHA-256 choice function. -/
def chf (e f g : Nat) : Nat := (e &&& f) ^^^ (not32 e &&& g)

/-- SHA-256 majority function. -/
def maj (a b c : Nat) : Nat := (a &&& b) ^^^ (a &&& c) ^^^ (b &&& c)

/-- Extends a 16-word block to the 64-word SHA-256 message schedule. -/
def sha256Extend (block : List Nat) : List Nat :=
  (List.range 48).foldl
    (fun w j =>
      let i := j + 16
      w ++ [add32 (add32 (ssig1 (w.getD (i - 2) 0)) (w.getD (i - 7) 0))
                  (add32 (ssig0 (w.getD (i - 15) 0)) (w.getD (i - 16) 0))])
    block

/-- One SHA-256 compression round on the state `[a,b,c,d,e,f,g,h]`. -/
def sha256Round (k w : Nat) : List Nat → List Nat
  | [a, b, c, d, e, f, g, h] =>
      let t1 := add32 h (add32 (bsig1 e) (add32 (chf e f g) (add32 k w)))
      let t2 := add32 (bsig0 a) (maj a b c)
      [add32 t1 t2, a, b, c, add32 d t1, e, f, g]
  | st => st

/-- SHA-256 compression of one 16-word block into the hash state. -/
def sha256Block (h : List Nat) (block : List Nat) : List Nat :=
  let w := sha256Extend block
  let st := (sha256K.zip w).foldl (fun st kw => sha256Round kw.1 kw.2 st) h
  List.zipWith add32 h st

/-- SHA-256 digest (32 bytes) of a byte string. Models Go `sha256.Sum256`. -/
def sha256Bytes (msg : List Nat) : List Nat :=
  let padded := msg ++ 0x80 :: List.replicate (mdPadZeros msg.length) 0 ++ beBytes 8 (8 * msg.length)
  let blocks := chunks16 (beWords padded)
  ((blocks.foldl sha256Block sha256H0).map (beBytes 4)).flatten

/-! ## HMAC-SHA256 (models Go `crypto/hmac` with `sha256.New`) -/

/-- HMAC-SHA256 of `msg` under `key` (RFC 2104; block size 64). -/
def hmacSha256 (key msg : List Nat) : List Nat :=
  let k0 := if 64 < key.length then sha256Bytes key else key
  let kp := k0 ++ List.replicate (64 - k0.length) 0
  sha256Bytes ((kp.map (· ^^^ 0x5c)) ++ sha256Bytes ((kp.map (· ^^^ 0x36)) ++ msg))

/-! ## MD5 (models Go `crypto/md5`, per RFC 1321) -/

/-- MD5 sine-table constants. -/
def md5K : List Nat := [
  0xd76aa478, 0xe8c7b756, 0x242070db, 0xc1bdceee, 0xf57c0faf, 0x4787c62a, 0xa8304613, 0xfd469501,
  0x698098d8, 0x8b44f7af, 0xffff5bb1, 0x895cd7be, 0x6b901122, 0xfd987193, 0xa679438e, 0x49b40821,
  0xf61e2562, 0xc040b340, 0x265e5a51, 0xe9b6c7aa, 0xd62f105d, 0x02441453, 0xd8a1e681, 0xe7d3fbc8,
  0x21e1cde6, 0xc33707d6, 0xf4d50d87, 0x455a14ed, 0xa9e3e905, 0xfcefa3f8, 0x676f02d9, 0x8d2a4c8a,
  0xfffa3942, 0x8771f681, 0x6d9d6122, 0xfde5380c, 0xa4beea44, 0x4bdecfa9, 0xf6bb4b60, 0xbebfbc70,
  0x289b7ec6, 0xeaa127fa, 0xd4ef3085, 0x04881d05, 0xd9d4d039, 0xe6db99e5, 0x1fa27cf8, 0xc4ac5665,
  0xf4292244, 0x432aff97, 0xab9423a7, 0xfc93a039, 0x655b59c3, 0x8f0ccc92, 0xffeff47d, 0x85845dd1,
  0x6fa87e4f, 0xfe2ce6e0, 0xa3014314, 0x4e0811a1, 0xf7537e82, 0xbd3af235, 0x2ad7d2bb, 0xeb86d391]

/-- MD5 per-round left-rotation amounts. -/
def md5S : List Nat := [
  7, 12, 17, 22, 7, 12, 17, 22, 7, 12, 17, 22, 7, 12, 17, 22,
  5, 9, 14, 20, 5, 9, 14, 20, 5, 9, 14, 20, 5, 9, 14, 20,
  4, 11, 16, 23, 4, 11, 16, 23, 4, 11, 16, 23, 4, 11, 16, 23,
  6, 10, 15, 21, 6, 10, 15, 21, 6, 10, 15, 21, 6, 10, 15, 21]

/-- Initial hash state of MD5. -/
def md5H0 : List Nat := [0x67452301, 0xefcdab89, 0x98badcfe, 0x10325476]

/-- MD5 round mixing function for step `i`. -/
def md5F (i b c d : Nat) : Nat :=
  if i < 16 then (b &&& c) ||| (not32 b &&& d)
  else if i < 32 then (d &&& b) ||| (not32 d &&& c)
  else if i < 48 then b ^^^ c ^^^ d
  else c ^^^ (b ||| not32 d)

/-- MD5 message-word index for step `i`. -/
def md5G (i : Nat) : Nat :=
  if i < 16 then i
  else if i < 32 then (5 * i + 1) % 16
  else if i < 48 then (3 * i + 5) % 16
  else (7 * i) % 16

/-- One MD5 step on the state `[a,b,c,d]` given the 16 message words `m`. -/
def md5Step (m : List Nat) (st : List Nat) (i : Nat) : List Nat :=
  match st with
  | [a, b, c, d] =>
      let f := add32 (add32 (md5F i b c d) a) (add32 (md5K.getD i 0) (m.getD (md5G i) 0))
      [d, add32 b (rotl32 (md5S.getD i 0) f), b, c]
  | st => st

/-- MD5 compression of one 16-word block into the hash state. -/
def md5Block (h : List Nat) (m : List Nat) : List Nat :=
  List.zipWith add32 h ((List.range 64).foldl (md5Step m) h)

/-- MD5 digest (16 bytes) of a byte string. Models Go `md5.New`/`Sum`. -/
def md5Bytes (msg : List Nat) : List Nat :=
  let padded := msg ++ 0x80 :: List.replicate (mdPadZeros msg.length) 0 ++ leBytes 8 (8 * msg.length)
  let blocks := chunks16 (leWords padded)
  ((blocks.foldl md5Block md5H0).map (leBytes 4)).flatten

/-! ## Hex encoding and byte strings -/

/-- Lowercase hex digit for a value below 16. Models Go `encoding/hex`. -/
def hexDigit (n : Nat) : Char := if n < 10 then Char.ofNat (48 + n) else Char.ofNat (87 + n)

/-- Lowercase hex encoding of a byte string. Models Go `hex.EncodeToString`. -/
def hexOfBytes (bs : List Nat) : String :=
  String.mk ((bs.map fun b => [hexDigit (b / 16), hexDigit (b % 16)]).flatten)

/-- Byte string of an ASCII Lean string (code points below 128 agree with
Go's UTF-8 bytes, which is all the concrete inputs here need). -/
def strBytes (s : String) : List Nat := s.data.map Char.toNat

/-! ## Go string and path helpers -/

/-- Whether the first list leads the second (Go `strings.HasPrefix`, spelled
out on characters so the kernel can evaluate it). -/
def listIsLeading : List Char → List Char → Bool
  | [], _ => true
  | _ :: _, [] => false
  | p :: ps, c :: cs => p == c && listIsLeading ps cs

/-- Models Go `strings.TrimPrefix`: drops `pre` if `s` starts with it,
otherwise returns `s` unchanged. -/
def goTrimLeading (pre s : String) : String :=
  if listIsLeading pre.data s.data then String.mk (s.data.drop pre.data.length) else s

/-- Splitting a character list on a separator character; the empty list
yields one empty group, as Go's `strings.Split` does. -/
def splitOnChar (sep : Char) : List Char → List (List Char)
  | [] => [[]]
  | c :: rest =>
    let r := splitOnChar sep rest
    if c = sep then [] :: r
    else match r with
         | [] => [[c]]
         | g :: gs => (c :: g) :: gs

/-- Models Go `strings.Split` for the single-character separators the agent
uses; in particular `Split("", sep) = [""]`. -/
def goSplit (s : String) (sep : Char) : List String :=
  (splitOnChar sep s.data).map String.mk

/-- Models Go `path.Base`: last element of a slash-separated path after
stripping trailing slashes; "." for the empty path, "/" for all-slash paths. -/
def pathBase (p : String) : String :=
  if p = "" then "." else
  let stripped := (p.data.reverse.dropWhile (· = '/')).reverse
  let base := (stripped.reverse.takeWhile (· ≠ '/')).reverse
  if base = [] then "/" else String.mk base

/-- Models Go `path.Ext`: the suffix of the final path element starting at its
last dot, or "" if the final element has no dot. -/
def pathExt (p : String) : String :=
  let seg := p.data.reverse.takeWhile (· ≠ '/')
  if seg.contains '.' then String.mk ((seg.takeWhile (· ≠ '.') ++ ['.']).reverse) else ""

/-- Lookup in an association list, the `Option`-valued form of Go's
two-result map read `v, ok := m[k]`. -/
def mapLookup {α : Type} (m : List (String × α)) (k : String) : Option α :=
  (m.find? fun kv => kv.1 == k).map Prod.snd

/-- Go map insert `m[k] = v`: replaces any previous binding of `k`. -/
def mapInsert {α : Type} (m : List (String × α)) (k : String) (v : α) : List (String × α) :=
  m.filter (fun kv => kv.1 ≠ k) ++ [(k, v)]

/-- Builds a Go map by inserting every element of `l` keyed by `keyOf`;
later elements overwrite earlier ones with the same key. -/
def buildIndex {α : Type} (keyOf : α → String) (l : List α) : List (String × α) :=
  l.foldl (fun m c => mapInsert m (keyOf c) c) []

/-! ## Data model (`internal/api/types.go` and `common/common.go`) -/

/-- One TOML scalar usable as a flag value or a flag-array element
(`flags` values decode from TOML into Go `any`). -/
inductive FlagScalar where
  | str (s : String)
  | int (n : Int)
  | bool (b : Bool)
deriving DecidableEq

/-- Value bound to a flag key: a scalar or an array of scalars (§3 of the
spec restricts flag arrays to scalars). -/
inductive FlagVal where
  | scalar (v : FlagScalar)
  | arr (elems : List FlagScalar)
deriving DecidableEq

/-- Go `fmt.Sprintf("%v", v)` on the scalars a flag value can hold. -/
def goFmtScalar : FlagScalar → String
  | .str s => s
  | .int n => toString n
  | .bool b => if b then "true" else "false"

/-- Secret entry of a ContainerSpec. -/
structure Secret where
  envVar : String
  ciphertext : String
deriving DecidableEq

/-- Mounted-file entry of a ContainerSpec. -/
structure SpecFile where
  path : String
  content : String
deriving DecidableEq

/-- Declarative container unit. The `flags` Go map is an association list
with unique keys; its order stands in for Go's arbitrary iteration order. -/
structure ContainerSpec where
  name : String
  hash : String
  image : String
  command : List String
  flags : List (String × FlagVal)
  secrets : List Secret
  files : List SpecFile
deriving DecidableEq

/-- What one node should be running. -/
structure NodeInventory where
  gitSHA : String
  containers : List ContainerSpec
deriving DecidableEq

/-! ## State container (`internal/concurrency/common.go` `StateContainer`,
identical in legacy `common/common.go`) -/

/-- A registered watcher: its key (Go keys watchers by their context value;
a `Nat` id stands in) and the number of undrained signals in its one-slot
channel (0 or 1 by construction). -/
abbrev Watcher : Type := Nat × Nat

/-- The concurrent holder of one value of type `T` with wake-only watchers.
The mutex serializes every operation, so the operations are modeled as pure
state transitions. -/
structure StateContainer (T : Type) where
  current : T
  watchers : List Watcher

/-- Models `StateContainer.Get`. -/
def StateContainer.get {T : Type} (s : StateContainer T) : T := s.current

/-- Non-blocking send on a one-slot channel (`select` with a `default` arm):
a signal is queued only when the buffer is empty, otherwise dropped. -/
def chanTrySend (queued : Nat) : Nat := if queued < 1 then queued + 1 else queued

/-- Models `StateContainer.bumpUnlocked`: non-blocking send to every watcher. -/
def StateContainer.bump {T : Type} (s : StateContainer T) : StateContainer T :=
  { s with watchers := s.watchers.map fun w => (w.1, chanTrySend w.2) }

/-- Models `StateContainer.Swap`: install the value, then bump watchers,
all under the lock. -/
def StateContainer.swap {T : Type} (s : StateContainer T) (val : T) : StateContainer T :=
  StateContainer.bump { s with current := val }

/-- Models `StateContainer.ReEnter`: bump watchers without changing the value. -/
def StateContainer.reEnter {T : Type} (s : StateContainer T) : StateContainer T :=
  StateContainer.bump s

/-- Models `StateContainer.Watch`: register a watcher with an empty one-slot
channel. (The goroutine that deregisters on cancellation is `cancel` below.) -/
def StateContainer.watch {T : Type} (s : StateContainer T) (id : Nat) : StateContainer T :=
  { s with watchers := s.watchers ++ [(id, 0)] }

/-- Models the cancellation goroutine inside `Watch`: deregister and close. -/
def StateContainer.cancel {T : Type} (s : StateContainer T) (id : Nat) : StateContainer T :=
  { s with watchers := s.watchers.filter fun w => w.1 ≠ id }

/-- One serialized operation against a state container. -/
inductive StateOp (T : Type) where
  | swap (val : T)
  | reEnter
  | watch (id : Nat)
  | cancel (id : Nat)

/-- Applies one operation. -/
def StateContainer.step {T : Type} (s : StateContainer T) : StateOp T → StateContainer T
  | .swap v => s.swap v
  | .reEnter => s.reEnter
  | .watch id => s.watch id
  | .cancel id => s.cancel id

/-- Runs a sequence of operations from the zero-value initial state (a Go
`StateContainer` starts at the zero value of `T` with no watchers). -/
def StateContainer.run {T : Type} (zero : T) (ops : List (StateOp T)) : StateContainer T :=
  ops.foldl StateContainer.step ⟨zero, []⟩

/-- Value installed by the most recent `swap` in `ops`, if any. -/
def lastSwapped {T : Type} (ops : List (StateOp T)) : Option T :=
  ops.foldl (fun acc op => match op with | .swap v => some v | _ => acc) none

/-! ## Retry backoff (`internal/concurrency/common.go` `RunLoop`, identical
in legacy `common/common.go`) -/

/-- One failure in the `attempt` loop of `RunLoop`: reads the `lastRetry`
accumulator (0 before the first failure) and returns the next pre-jitter
sleep duration in nanoseconds, which is also the next accumulator value. -/
def nextRetry (maxRetry lastRetry : Int) : Int :=
  let l1 := if lastRetry = 0 then 50000000 else lastRetry
  let l2 := l1 + Int.tdiv l1 8
  if maxRetry < l2 then maxRetry else l2

/-- Pre-jitter sleep durations of `RunLoop`: `retrySeq maxRetry n` is the
`lastRetry` value slept after the n-th consecutive failure (n ≥ 1);
`retrySeq maxRetry 0 = 0` is the declaration-time zero value. -/
def retrySeq (maxRetry : Int) : Nat → Int
  | 0 => 0
  | n + 1 => nextRetry maxRetry (retrySeq maxRetry n)

/-! ## Auth middleware: current `internal/rpc/middleware.go` and legacy
`common/common.go` -/

/-- The slice of an inbound request the middleware looks at: the TLS peer
certificates (raw DER bytes; `[]` also covers `r.TLS == nil`) and the URL
query (`RawQuery` kept in decoded association-list form). -/
structure Request where
  peerCerts : List (List Nat)
  query : List (String × String)

/-- Outcome of the middleware: a bare status write, or the wrapped handler's
result. -/
inductive AuthOutcome (α : Type) where
  | unauthenticated
  | forbidden
  | handled (a : α)
deriving DecidableEq

/-- Models `rpc.GetCertFingerprint` (`internal/rpc/tls.go`): lowercase hex
SHA-256 of the certificate bytes. -/
def GetCertFingerprint (cert : List Nat) : String := hexOfBytes (sha256Bytes cert)

/-- Models `url.Values.Set` on the query: replace any existing binding of the
key. -/
def querySet (q : List (String × String)) (k v : String) : List (String × String) :=
  mapInsert q k v

namespace Rpc

/-- Models `rpc.WithAuth` (`internal/rpc/middleware.go`): 401 without peer
certificates; 403 when the authorizer is nil or does not trust the first
peer certificate's fingerprint; otherwise the fingerprint is set in the
query string and the wrapped handler runs. `auth` is the `TrustsCert`
method of the `Authorizer`; `none` models a nil interface. -/
def WithAuth {α : Type} (auth : Option (String → Bool)) (next : Request → α)
    (r : Request) : AuthOutcome α :=
  match r.peerCerts with
  | [] => .unauthenticated
  | c :: _ =>
    let fingerprint := GetCertFingerprint c
    match auth with
    | none => .forbidden
    | some trusts =>
      if trusts fingerprint then
        .handled (next { r with query := querySet r.query "fingerprint" fingerprint })
      else .forbidden

end Rpc

namespace CommonPkg

/-- Models the legacy `common.WithAuth` (`common/common.go` lines 232-253).
Note the condition on line 241 reads `auth == nil || auth.TrustsCert(...)`,
so this generation responds 403 exactly when the authorizer trusts the
fingerprint, and forwards untrusted callers. -/
def WithAuth {α : Type} (auth : Option (String → Bool)) (next : Request → α)
    (r : Request) : AuthOutcome α :=
  match r.peerCerts with
  | [] => .unauthenticated
  | c :: _ =>
    let fingerprint := GetCertFingerprint c
    match auth with
    | none => .forbidden
    | some trusts =>
      if trusts fingerprint then .forbidden
      else .handled (next { r with query := querySet r.query "fingerprint" fingerprint })

end CommonPkg

/-! ## Agent: container-creation argv (`getPodmanFlags`), in both
generations: legacy `agent/main.go` lines 363-395 and current
`agent/podman.go` lines 215-242 -/

/-- A ContainerSpec expanded with the decrypted secret values and the
absolute paths / ids of the mount files written for it (`podmanStart`
fills the three lists aligned index-by-index with `secrets` / `files`). -/
structure ExpandedContainerSpec where
  spec : ContainerSpec
  decryptedSecrets : List String
  mounts : List String
  mountIDs : List String

/-- Rendering shared by both generations for one flag binding apart from the
kickstart label: an array value yields one `--key=elem` per element, a
scalar yields a single `--key=value` (Go `fmt.Sprintf("--%s=%v", ...)`). -/
def renderFlag (key : String) (val : FlagVal) : List String :=
  match val with
  | .arr elems => elems.map fun cur => "--" ++ key ++ "=" ++ goFmtScalar cur
  | .scalar v => ["--" ++ key ++ "=" ++ goFmtScalar v]

/-- The legacy flag rendering (`agent/main.go` lines 366-380): before the
`--key=value` argument, a string-valued `restart` flag that is neither
`always` nor `unless-stopped` additionally emits `--label=kickstart=false`. -/
def renderFlagLegacy (key : String) (val : FlagVal) : List String :=
  match val with
  | .arr elems => elems.map fun cur => "--" ++ key ++ "=" ++ goFmtScalar cur
  | .scalar v =>
    (match v with
     | .str s =>
       if key = "restart" ∧ s ≠ "always" ∧ s ≠ "unless-stopped"
       then ["--label=kickstart=false"] else []
     | _ => []) ++ ["--" ++ key ++ "=" ++ goFmtScalar v]

/-- Argv sections common to both generations after the flags section:
`--env=` per secret, `--mount=` per file, the `recomposeMounts` label when
any file exists, then image and command. -/
def podmanFlagsTail (c : ExpandedContainerSpec) : List String :=
  ((c.spec.secrets.zip c.decryptedSecrets).map fun p =>
    "--env=" ++ (p.1.envVar ++ ("=" ++ p.2)))
  ++ ((c.spec.files.zip c.mounts).map fun p =>
    "--mount=type=bind,source=" ++ (p.2 ++ (",target=" ++ (p.1.path ++ ",readonly"))))
  ++ (if c.mountIDs ≠ [] then
        ["--label=recomposeMounts=" ++ String.intercalate "," c.mountIDs] else [])
  ++ [c.spec.image] ++ c.spec.command

/-- The argument §4.7 derives from the restart policy. -/
def kickstartLabel : String := "--label=kickstart=false"

/-- A container spec none of whose orthogonal argv sources (name, image,
command words, or ordinary flag renderings) happens to be the literal string
`--label=kickstart=false`; under this proviso that argument can only come
from the kickstart rule itself. -/
def CleanSpec (c : ExpandedContainerSpec) : Prop :=
  c.spec.name ≠ kickstartLabel ∧ c.spec.image ≠ kickstartLabel ∧
  kickstartLabel ∉ c.spec.command ∧
  ∀ kv ∈ c.spec.flags, kickstartLabel ∉ renderFlag kv.1 kv.2

/-- Argv prefix shared by both generations. -/
def podmanFlagsHead (c : ExpandedContainerSpec) : List String :=
  ["run", "-d", "--name", c.spec.name, "--label=createdBy=recompose",
   "--label=recomposeHash=" ++ c.spec.hash]

namespace AgentMain

/-- Models the legacy `getPodmanFlags` (`agent/main.go` lines 363-395),
including the `--label=kickstart=false` injection for a string `restart`
flag that is neither `always` nor `unless-stopped`. -/
def getPodmanFlags (c : ExpandedContainerSpec) : List String :=
  podmanFlagsHead c
  ++ (c.spec.flags.flatMap fun kv => renderFlagLegacy kv.1 kv.2)
  ++ podmanFlagsTail c

end AgentMain

namespace AgentPodman

/-- Models the current `getPodmanFlags` (`agent/podman.go` lines 215-242).
This generation renders every flag with the plain `--key=value` form and
never emits `--label=kickstart=false`. -/
def getPodmanFlags (c : ExpandedContainerSpec) : List String :=
  podmanFlagsHead c
  ++ (c.spec.flags.flatMap fun kv => renderFlag kv.1 kv.2)
  ++ podmanFlagsTail c

end AgentPodman

/-! ## Agent: reconciler (`agent/podman.go` `syncPodman`, lines 19-116) -/

/-- One entry of `podman ps --all --format=json --filter=label=createdBy=recompose`
output as decoded by the agent. Labels are a Go map modeled as an
association list; a missing key reads as `""` like a Go map miss
(`labelsGet`), which also covers a nil `Labels` map. -/
structure PsOutput where
  names : List String
  labels : List (String × String)
  exited : Bool

/-- Go map read `m[k]` on a string-valued map: the zero value `""` on a miss. -/
def labelsGet (labels : List (String × String)) (k : String) : String :=
  (mapLookup labels k).getD ""

/-- External mutations `syncPodman` can perform, in the order the code
performs them. `run` abstracts `podmanStart` (decrypt secrets, write mount
files, `podman run ...`); its success or failure is all the reconciler
control flow observes. -/
inductive PodmanAction where
  | rm (name : String)
  | removeMountFile (file : String)
  | kickstart (name : String)
  | runContainer (spec : ContainerSpec)

/-- Result of one reconciler pass: the external mutations performed in
order, whether `state.ReEnter()` was called, and the error if any. -/
structure SyncResult where
  actions : List PodmanAction
  reentered : Bool
  err : Option String
deriving Inhabited

/-- The mount-file cleanup loop of `syncPodman` (lines 65-80): delete every
file in `mounts/` whose name is not in use; a failed delete aborts the pass,
a successful pass deletes all unused files and falls through (no `ReEnter`). -/
def cleanupMounts (env : PodmanAction → Bool) (inUseFiles : List String) :
    List String → List PodmanAction × Option String
  | [] => ([], none)
  | f :: rest =>
    if inUseFiles.contains f then cleanupMounts env inUseFiles rest
    else if env (.removeMountFile f) then
      let (as, e) := cleanupMounts env inUseFiles rest
      (.removeMountFile f :: as, e)
    else ([PodmanAction.removeMountFile f], some "cleaning up mount file")

/-- Whether the start loop (lines 82-113) acts on a goal container: it is
started when unobserved, kickstarted when observed, exited and not labeled
`kickstart=false`, and skipped otherwise. -/
def startLoopAction (existingIndex : List (String × PsOutput)) (c : ContainerSpec) :
    Option PodmanAction :=
  match mapLookup existingIndex c.hash with
  | some e =>
    if !e.exited then none
    else if labelsGet e.labels "kickstart" = "false" then none
    else some (.kickstart c.name)
  | none => some (.runContainer c)

/-- Models `syncPodman` (`agent/podman.go` lines 19-116) as a pure function
of the latest inventory, the observed `podman ps` output, and the listing
of the `mounts/` directory. `env` supplies each external mutation's
success; Go's random map iteration is instantiated by the association-list
order (the claims proved below do not depend on it). `c.Names[0]` is
`names.headD ""`; podman always reports at least one name. -/
def syncPodman (env : PodmanAction → Bool) (current : Option NodeInventory)
    (observed : List PsOutput) (mountFiles : List String) : SyncResult :=
  match current with
  | none => ⟨[], false, none⟩
  | some inv =>
    let goalIndex := buildIndex (fun c : ContainerSpec => c.hash) inv.containers
    let existingIndex := buildIndex (fun c : PsOutput => labelsGet c.labels "recomposeHash") observed
    let inUseFiles := observed.flatMap fun c => goSplit (labelsGet c.labels "recomposeMounts") ','
    -- Remove orphaned containers: the first map entry whose hash is empty or
    -- no longer in the goal set is removed and the pass returns.
    match existingIndex.find? (fun kv => !(kv.1 != "" && (mapLookup goalIndex kv.1).isSome)) with
    | some kv =>
      let name := kv.2.names.headD ""
      if env (.rm name) then ⟨[.rm name], true, none⟩
      else ⟨[.rm name], false, some "removing container"⟩
    | none =>
      -- Clean up unused mount files (no return on success).
      match cleanupMounts env inUseFiles mountFiles with
      | (as, some e) => ⟨as, false, some e⟩
      | (as, none) =>
        -- Start missing containers / kickstart exited ones: first goal entry
        -- that needs an action.
        match goalIndex.findSome? (fun kv => startLoopAction existingIndex kv.2) with
        | some act =>
          if env act then ⟨as ++ [act], true, none⟩
          else ⟨as ++ [act], false, some "starting container"⟩
        | none => ⟨as, false, none⟩

/-! ## Coordinator: inventory (`part_008` of the unnamed sources /
`coordinator/inventory.go`) -/

/-- One `[[ node ]]` stanza of cluster.toml. -/
structure NodeSpec where
  fingerprint : String
  containers : List String

/-- One `[[ client ]]` stanza of cluster.toml. -/
structure ClientSpec where
  fingerprint : String

/-- Decoded cluster.toml. -/
structure ClusterSpec where
  nodes : List NodeSpec
  clients : List ClientSpec

/-- The coordinator's live view. The Go maps are association lists with
unique keys; `clientsByFingerprint` is the key set of a Go set-map. -/
structure IndexedInventory where
  gitSHA : String
  nodesByFingerprint : List (String × NodeInventory)
  clientsByFingerprint : List String
deriving DecidableEq

/-- The three outcomes of `toml.DecodeFile` on cluster.toml that
`readInventory` distinguishes: the file does not exist, decoding failed, or
a cluster spec was decoded. -/
inductive ClusterFile where
  | missing
  | malformed (e : String)
  | parsed (c : ClusterSpec)

/-- Models `readContainerSpec` (`part_008` lines 122-142, identical to
`coordinator/inventory.go` lines 114-134). `fs` is the filesystem
(`os.Open` + reading; `none` is any open/read failure) and `decode` the
TOML decoder for the spec body (`none` is a decode error). The TOML decoder
reads the file through a `TeeReader` to completion, so the MD5 `hash`
covers exactly the file's bytes; `name` is the base name minus its
extension (byte slicing and char slicing agree on these ASCII paths). -/
def readContainerSpec (fs : String → Option (List Nat))
    (decode : List Nat → Option ContainerSpec) (file : String) :
    Except String ContainerSpec :=
  match fs file with
  | none => .error "opening file"
  | some bytes =>
    match decode bytes with
    | none => .error "decoding spec"
    | some spec =>
      let fileName := pathBase file
      .ok { spec with
            name := String.mk (fileName.data.take
              (fileName.data.length - (pathExt fileName).data.length)),
            hash := hexOfBytes (md5Bytes bytes) }

/-- The per-node container loop of `readInventory` (`part_008` lines 87-100):
read each referenced path through the memo `containerIndex`, skip paths whose
read fails, memoize successes. Returns the node's containers in reference
order and the updated memo. `read` abstracts `readContainerSpec` over the
ambient filesystem. -/
def readNodeContainers (read : String → Except String ContainerSpec) :
    List String → List (String × ContainerSpec) →
    List ContainerSpec × List (String × ContainerSpec)
  | [], memo => ([], memo)
  | path :: rest, memo =>
    match mapLookup memo path with
    | some c =>
      let (cs, m) := readNodeContainers read rest memo
      (c :: cs, m)
    | none =>
      match read path with
      | .error _ => readNodeContainers read rest memo
      | .ok c =>
        let (cs, m) := readNodeContainers read rest (mapInsert memo path c)
        (c :: cs, m)

/-- The node loop of `readInventory` (`part_008` lines 81-103): skip nodes
with an empty fingerprint, build each node's inventory at the pulled SHA,
thread the memo across nodes. -/
def readInventoryNodes (read : String → Except String ContainerSpec) (sha : String) :
    List NodeSpec → List (String × NodeInventory) → List (String × ContainerSpec) →
    List (String × NodeInventory)
  | [], acc, _ => acc
  | node :: rest, acc, memo =>
    if node.fingerprint = "" then readInventoryNodes read sha rest acc memo
    else
      let (cs, memo2) := readNodeContainers read node.containers memo
      readInventoryNodes read sha rest (mapInsert acc node.fingerprint ⟨sha, cs⟩) memo2

/-- Models `readInventory` (`part_008` lines 70-120): a missing cluster.toml
yields the empty inventory (before the pruning step), a malformed one fails
the sync, and otherwise the node inventories, the client set, and the pruned
node-metadata fingerprints are produced. `nms` is the fingerprint set of the
`nodeMetadataStore`; pruning keeps exactly the fingerprints present in the
new `nodesByFingerprint`. -/
def readInventory (read : String → Except String ContainerSpec)
    (clusterFile : ClusterFile) (sha : String) (nms : List String) :
    Except String (IndexedInventory × List String) :=
  match clusterFile with
  | .missing => .ok (⟨sha, [], []⟩, nms)
  | .malformed e => .error e
  | .parsed cluster =>
    let nodes := readInventoryNodes read sha cluster.nodes [] []
    let clients := cluster.clients.map (·.fingerprint)
    let pruned := nms.filter fun fp => (mapLookup nodes fp).isSome
    .ok (⟨sha, nodes, clients⟩, pruned)

/-- Restatement of §4.3 steps 5-7 of the spec in direct form, for comparison
with `readInventory`: every node with a non-empty fingerprint maps to the
containers of its readable references in order (read failures skipped, no
memoization), clients are collected, and metadata for absent fingerprints is
pruned. -/
def readInventorySpec (read : String → Except String ContainerSpec)
    (cluster : ClusterSpec) (sha : String) (nms : List String) :
    IndexedInventory × List String :=
  let nodes := cluster.nodes.foldl
    (fun acc node =>
      if node.fingerprint = "" then acc
      else mapInsert acc node.fingerprint
        ⟨sha, node.containers.filterMap fun p => (read p).toOption⟩) []
  let clients := cluster.clients.map (·.fingerprint)
  (⟨sha, nodes, clients⟩, nms.filter fun fp => (mapLookup nodes fp).isSome)

/-- Tail of `syncInventory` (`part_008` lines 36-47): build the fresh
`indexedInventory` and swap it into the state container. -/
def syncRebuild (read : String → Except String ContainerSpec)
    (clusterFile : ClusterFile) (sha : String)
    (st : StateContainer (Option IndexedInventory)) (nms : List String) :
    StateContainer (Option IndexedInventory) × List String × Option String :=
  match readInventory read clusterFile sha nms with
  | .error e => (st, nms, some ("reading inventory: " ++ e))
  | .ok (inv, nmsOut) => (st.swap (some inv), nmsOut, none)

/-- Models `syncInventory` (`part_008` lines 25-48): pull the repository; if
the held inventory already carries the pulled SHA, do nothing; otherwise
rebuild the inventory and swap it in. `pull` is the outcome of `gitPull`,
and the result carries the state container, the surviving node-metadata
fingerprints, and the error if any. -/
def syncInventory (pull : Except String String)
    (read : String → Except String ContainerSpec) (clusterFile : ClusterFile)
    (st : StateContainer (Option IndexedInventory)) (nms : List String) :
    StateContainer (Option IndexedInventory) × List String × Option String :=
  match pull with
  | .error e => (st, nms, some ("pulling git repo: " ++ e))
  | .ok sha =>
    match st.get with
    | some cur =>
      if cur.gitSHA = sha then (st, nms, none)
      else syncRebuild read clusterFile sha st nms
    | none => syncRebuild read clusterFile sha st nms

/-! ## Coordinator: HTTP handlers (`part_019` / `coordinator/http.go`) -/

/-- What the webhook handler writes back and does to the signal channel:
the response status (200 when the handler returns without an explicit
`WriteHeader`), whether a signal was sent, and the channel slot afterwards. -/
structure HookResult where
  status : Nat
  sent : Bool
  slotFull : Bool
deriving DecidableEq

/-- Models `newWebhookHandler` (`part_019` lines 49-65, identical logic in
`coordinator/http.go` lines 19-43): HMAC-SHA256 the body under the shared
key, compare the lowercase hex digest against the `X-Hub-Signature-256`
header with its `sha256=` prefix stripped (`hmac.Equal` on equal-length
inputs is plain equality), 401 on mismatch, and on match a non-blocking
send on the one-slot signal channel whose prior occupancy is `slot`. -/
def newWebhookHandler (key body : List Nat) (header : String) (slot : Bool) : HookResult :=
  let digest := hexOfBytes (hmacSha256 key body)
  let sig := goTrimLeading "sha256=" header
  if digest ≠ sig then ⟨401, false, slot⟩
  else if slot then ⟨200, false, true⟩ else ⟨200, true, true⟩

/-- Response of the `/decrypt` handler. `sliceOutOfRange` is the Go runtime
panic `out[:len(out)-1]` raises when `out` is empty. -/
inductive DecryptResponse where
  | serverError
  | sliceOutOfRange
  | body (bytes : List Nat)
deriving DecidableEq

/-- Go slice expression `l[:hi]` with an `int` bound: in range only for
`0 ≤ hi ≤ len(l)`, otherwise a runtime panic (`none`). -/
def goSliceUpTo (l : List Nat) (hi : Int) : Option (List Nat) :=
  if 0 ≤ hi ∧ hi ≤ (l.length : Int) then some (l.take hi.toNat) else none

/-- Models `newDecryptHandler` (`part_019` lines 107-119, identical logic in
`coordinator/http.go` lines 84-94): `cmdResult` is the combined output of
the `age --decrypt` subprocess (error payload = combined output on
failure). Failure writes 500; success writes `out[:len(out)-1]`. -/
def newDecryptHandler (cmdResult : Except (List Nat) (List Nat)) : DecryptResponse :=
  match cmdResult with
  | .error _ => .serverError
  | .ok out =>
    match goSliceUpTo out ((out.length : Int) - 1) with
    | some b => .body b
    | none => .sliceOutOfRange

/-! ## Helper lemmas: the Go-map model -/

theorem find?_filter_of_imp {α : Type} (l : List α) (p q : α → Bool)
    (h : ∀ x, p x = true → q x = true) : (l.filter q).find? p = l.find? p := by
  induction l with
  | nil => rfl
  | cons a t ih =>
    by_cases hq : q a = true
    · by_cases hp : p a = true
      · simp [List.filter_cons, hq, List.find?_cons, hp]
      · simp only [List.filter_cons, if_pos hq, List.find?_cons]
        simp only [Bool.not_eq_true] at hp
        simp [hp, ih]
    · have hp : p a = false := by
        cases hpa : p a
        · rfl
        · exact absurd (h a hpa) hq
      simp only [List.filter_cons, hq, if_false, List.find?_cons]
      simp [hp, ih]

theorem mapLookup_mapInsert {α : Type} (m : List (String × α)) (k k2 : String) (v : α) :
    mapLookup (mapInsert m k v) k2 = if k2 = k then some v else mapLookup m k2 := by
  unfold mapInsert mapLookup
  rw [List.find?_append]
  by_cases h : k2 = k
  · subst h
    have hl : (m.filter fun kv => kv.1 ≠ k2).find? (fun kv => kv.1 == k2) = none := by
      rw [List.find?_eq_none]
      intro x hx
      have hx2 := (List.mem_filter.mp hx).2
      simp only [ne_eq, decide_not, Bool.not_eq_eq_eq_not, Bool.not_true, decide_eq_false_iff_not] at hx2
      simp [hx2]
    simp [hl]
  · have hl : (m.filter fun kv => kv.1 ≠ k).find? (fun kv => kv.1 == k2) = m.find? (fun kv => kv.1 == k2) := by
      apply find?_filter_of_imp
      intro x hp
      have : x.1 = k2 := by simpa using hp
      simp [this, h]
    rw [hl]
    have hr : ([(k, v)].find? fun kv => kv.1 == k2) = none := by
      simp [List.find?_cons, Ne.symm h]
    rw [hr]
    cases m.find? (fun kv => kv.1 == k2) <;> simp [Option.or, h]

theorem buildIndex_lookup_aux {α : Type} (keyOf : α → String) (l : List α) :
    ∀ (m0 : List (String × α)) (k : String),
      mapLookup (l.foldl (fun m c => mapInsert m (keyOf c) c) m0) k
        = (l.reverse.find? fun c => keyOf c == k).or (mapLookup m0 k) := by
  induction l with
  | nil => intro m0 k; simp
  | cons c t ih =>
    intro m0 k
    simp only [List.foldl_cons, List.reverse_cons, List.find?_append, Option.or_assoc,
      List.find?_singleton]
    rw [ih, mapLookup_mapInsert]
    by_cases h : k = keyOf c
    · rw [if_pos h, if_pos (by simp [h])]
      cases t.reverse.find? (fun x => keyOf x == k) <;> rfl
    · rw [if_neg h, if_neg (by simp; exact fun e => h e.symm), Option.none_or]

theorem buildIndex_lookup {α : Type} (keyOf : α → String) (l : List α) (k : String) :
    mapLookup (buildIndex keyOf l) k = l.reverse.find? fun c => keyOf c == k := by
  rw [buildIndex, buildIndex_lookup_aux]
  have : mapLookup ([] : List (String × α)) k = none := rfl
  rw [this]
  cases l.reverse.find? (fun c => keyOf c == k) <;> simp [Option.or]

theorem buildIndex_lookup_isSome {α : Type} (keyOf : α → String) (l : List α) (k : String) :
    (mapLookup (buildIndex keyOf l) k).isSome = true ↔ ∃ c ∈ l, keyOf c = k := by
  rw [buildIndex_lookup, List.find?_isSome]
  constructor
  · rintro ⟨c, hc, hk⟩
    exact ⟨c, List.mem_reverse.mp hc, by simpa using hk⟩
  · rintro ⟨c, hc, hk⟩
    exact ⟨c, List.mem_reverse.mpr hc, by simp [hk]⟩

theorem buildIndex_lookup_some {α : Type} (keyOf : α → String) (l : List α) (k : String)
    (c : α) (h : mapLookup (buildIndex keyOf l) k = some c) : c ∈ l ∧ keyOf c = k := by
  rw [buildIndex_lookup] at h
  exact ⟨List.mem_reverse.mp (List.mem_of_find?_eq_some h), by simpa using List.find?_some h⟩

theorem mem_mapInsert {α : Type} (m : List (String × α)) (k : String) (v : α)
    (x : String × α) (h : x ∈ mapInsert m k v) : x ∈ m ∨ x = (k, v) := by
  unfold mapInsert at h
  rcases List.mem_append.mp h with h1 | h1
  · exact Or.inl (List.mem_filter.mp h1).1
  · exact Or.inr (by simpa using h1)

theorem mem_buildIndex {α : Type} (keyOf : α → String) (l : List α) :
    ∀ (m0 : List (String × α)) (x : String × α),
      x ∈ l.foldl (fun m c => mapInsert m (keyOf c) c) m0 →
      x ∈ m0 ∨ (x.2 ∈ l ∧ x.1 = keyOf x.2) := by
  induction l with
  | nil => intro m0 x h; exact Or.inl h
  | cons c t ih =>
    intro m0 x h
    rcases ih (mapInsert m0 (keyOf c) c) x h with h1 | h1
    · rcases mem_mapInsert m0 (keyOf c) c x h1 with h2 | h2
      · exact Or.inl h2
      · subst h2; exact Or.inr ⟨List.mem_cons_self c t, rfl⟩
    · exact Or.inr ⟨List.mem_cons_of_mem c h1.1, h1.2⟩

/-! ## C10: the /decrypt success path -/

/-- C10: on the success path the `/decrypt` handler responds with the
subprocess output minus its final byte; the slice `out[:len(out)-1]` is in
bounds exactly when the output is non-empty, and an empty successful output
makes the success branch panic (out-of-range slice). A failed subprocess
yields 500. -/
theorem decryptHandler_trims_last_byte :
    (∀ out : List Nat,
      newDecryptHandler (.ok out) =
        if out = [] then DecryptResponse.sliceOutOfRange else .body out.dropLast)
    ∧ ∀ e : List Nat, newDecryptHandler (.error e) = .serverError := by
  constructor
  · intro out
    cases out with
    | nil => simp [newDecryptHandler, goSliceUpTo]
    | cons a t =>
      have hc : (0 : Int) ≤ ((a :: t).length : Int) - 1 ∧
          ((a :: t).length : Int) - 1 ≤ ((a :: t).length : Int) := by
        constructor <;> simp
      have ht : (((a :: t).length : Int) - 1).toNat = (a :: t).length - 1 := by
        simp
      simp only [newDecryptHandler, goSliceUpTo, if_pos hc, ht]
      simp [List.dropLast_eq_take]
  · intro e; rfl

/-! ## C3: the state container -/

/-- C3: over any operation sequence from the zero value, `get` returns the
most recently swapped value (or the zero value before any swap); and one
`swap` installs its value and performs a non-blocking send to every
registered watcher, so a watcher with an empty one-slot buffer receives
exactly one signal and a watcher with a full buffer is skipped (the bump is
dropped), its buffer left untouched. -/
theorem stateContainer_semantics {T : Type} (zero : T) :
    (∀ ops : List (StateOp T),
      (StateContainer.run zero ops).get = (lastSwapped ops).getD zero)
    ∧ ∀ (s : StateContainer T) (v : T),
        (s.swap v).current = v ∧
        (s.swap v).watchers = s.watchers.map fun w =>
          (w.1, if w.2 = 0 then w.2 + 1 else w.2) := by
  constructor
  · have aux : ∀ (ops : List (StateOp T)) (s : StateContainer T) (acc : Option T),
        s.current = acc.getD zero →
        (ops.foldl StateContainer.step s).current
          = (ops.foldl (fun a op => match op with
              | StateOp.swap v => some v
              | _ => a) acc).getD zero := by
      intro ops
      induction ops with
      | nil => intro s acc h; exact h
      | cons op rest ih =>
        intro s acc h
        cases op with
        | swap v => exact ih _ _ rfl
        | reEnter => exact ih _ _ h
        | watch id => exact ih _ _ h
        | cancel id => exact ih _ _ h
    intro ops
    exact aux ops ⟨zero, []⟩ none rfl
  · intro s v
    refine ⟨rfl, ?_⟩
    have hf : (fun w : Watcher => (w.1, chanTrySend w.2))
        = fun w : Watcher => (w.1, if w.2 = 0 then w.2 + 1 else w.2) := by
      funext w
      unfold chanTrySend
      by_cases h : w.2 = 0 <;> simp [h, Nat.lt_one_iff]
    show s.watchers.map (fun w => (w.1, chanTrySend w.2)) = _
    rw [hf]

/-! ## C5: the RunLoop backoff -/

/-- C5 counterexample: the claim states the pre-jitter sleep of the first
failing attempt is 50 ms, but `RunLoop` multiplies before its first sleep
(`lastRetry = 50ms` then `lastRetry += lastRetry/8`), so the first sleep is
56.25 ms (here with `maxRetry` = 1 hour, the agent's reconciler setting). -/
theorem runLoop_first_sleep_counterexample :
    retrySeq 3600000000000 1 = 56250000 ∧ (56250000 : Int) ≠ 50000000 := by decide

/-- C5 amended: the pre-jitter sleep is initially 56.25 ms (the ×1.125
growth is applied before the first sleep), each consecutive failure grows
it by the factor 1.125 rounded down to a nanosecond (`l += l/8` in integer
arithmetic) and caps it at `maxRetry`; consequently, for a non-negative
`maxRetry`, successive sleeps are non-negative, non-decreasing, and never
exceed `maxRetry`. -/
theorem runLoop_backoff_monotone_capped (maxRetry : Int) (h : 0 ≤ maxRetry) :
    retrySeq maxRetry 1 = min maxRetry 56250000
    ∧ (∀ n, 0 ≤ retrySeq maxRetry n)
    ∧ (∀ n, retrySeq maxRetry (n + 1) ≤ maxRetry)
    ∧ ∀ n, retrySeq maxRetry (n + 1) ≤ retrySeq maxRetry (n + 2) := by
  have ht : Int.tdiv 50000000 8 = 6250000 := by decide
  have hstep : ∀ l : Int, 0 ≤ l → l ≤ maxRetry → l ≤ nextRetry maxRetry l ∧
      0 ≤ nextRetry maxRetry l ∧ nextRetry maxRetry l ≤ maxRetry := by
    intro l hl hlm
    by_cases hz : l = 0
    · subst hz
      have hv : nextRetry maxRetry 0 =
          if maxRetry < 56250000 then maxRetry else 56250000 := by
        unfold nextRetry
        norm_num [ht]
      rw [hv]
      refine ⟨by split <;> omega, by split <;> omega, by split <;> omega⟩
    · have hd : (0 : Int) ≤ Int.tdiv l 8 := Int.tdiv_nonneg hl (by decide)
      have hv : nextRetry maxRetry l =
          if maxRetry < l + Int.tdiv l 8 then maxRetry else l + Int.tdiv l 8 := by
        unfold nextRetry
        simp [hz]
      rw [hv]
      refine ⟨by split <;> omega, by split <;> omega, by split <;> omega⟩
  have hnn : ∀ n, 0 ≤ retrySeq maxRetry n ∧ retrySeq maxRetry n ≤ maxRetry := by
    intro n
    induction n with
    | zero => exact ⟨le_refl 0, h⟩
    | succ m ih =>
      have := hstep (retrySeq maxRetry m) ih.1 ih.2
      exact ⟨this.2.1, this.2.2⟩
  refine ⟨?_, fun n => (hnn n).1, fun n => (hnn (n + 1)).2, fun n => ?_⟩
  · show nextRetry maxRetry (retrySeq maxRetry 0) = min maxRetry 56250000
    have h0 : retrySeq maxRetry 0 = 0 := rfl
    rw [h0]
    unfold nextRetry
    norm_num [ht]
    split <;> omega
  · exact (hstep (retrySeq maxRetry (n + 1)) (hnn (n + 1)).1 (hnn (n + 1)).2).1

/-- Witness for the amended C5 statement at the agent reconciler's
`maxRetry` of one hour. -/
theorem runLoop_backoff_witness :
    retrySeq 3600000000000 1 = min (3600000000000 : Int) 56250000 :=
  (runLoop_backoff_monotone_capped 3600000000000 (by decide)).1

/-! ## C9: the webhook handler -/

set_option maxRecDepth 16384 in
/-- C9: the webhook responds 401 and sends no signal exactly when the
`X-Hub-Signature-256` header, after stripping the `sha256=` prefix, is not
the lowercase hex HMAC-SHA256 of the body under the shared key; on a match
it performs one non-blocking send on the one-slot channel (dropped when the
slot is full) and the implicit 200 status; and for body `test123` under key
`test key` the accepted digest is exactly the claimed constant. -/
theorem webhookHandler_behavior (key body : List Nat) (header : String) (slot : Bool) :
    (newWebhookHandler key body header slot = ⟨401, false, slot⟩ ↔
      goTrimLeading "sha256=" header ≠ hexOfBytes (hmacSha256 key body))
    ∧ (goTrimLeading "sha256=" header = hexOfBytes (hmacSha256 key body) →
        newWebhookHandler key body header slot = ⟨200, !slot, true⟩)
    ∧ hexOfBytes (hmacSha256 (strBytes "test key") (strBytes "test123"))
        = "5cf4ccad5951e3c0de540fbad18c940f7dbdd85b37b4c6491f4105bb7ff9063e" := by
  refine ⟨?_, ?_, by decide⟩
  · by_cases hne : hexOfBytes (hmacSha256 key body) ≠ goTrimLeading "sha256=" header
    · constructor
      · intro _
        exact Ne.symm hne
      · intro _
        unfold newWebhookHandler
        rw [if_pos hne]
    · rw [not_not] at hne
      constructor
      · intro hEq
        unfold newWebhookHandler at hEq
        rw [if_neg (by simp [hne])] at hEq
        cases slot <;> simp_all
      · intro hcontra
        exact absurd hne.symm hcontra
  · intro he
    unfold newWebhookHandler
    rw [if_neg (by simp [he])]
    cases slot <;> rfl

set_option maxRecDepth 16384 in
/-- Witness for C9 at the literal test vector of §8 S7. -/
theorem webhookHandler_witness :
    newWebhookHandler (strBytes "test key") (strBytes "test123")
      "sha256=5cf4ccad5951e3c0de540fbad18c940f7dbdd85b37b4c6491f4105bb7ff9063e" false
      = ⟨200, true, true⟩ :=
  (webhookHandler_behavior (strBytes "test key") (strBytes "test123")
    "sha256=5cf4ccad5951e3c0de540fbad18c940f7dbdd85b37b4c6491f4105bb7ff9063e" false).2.1
    (by decide)

/-! ## C1: the auth middleware -/

/-- C1: for a request presenting at least one peer certificate, the current
middleware (`internal/rpc/middleware.go`) responds 403 without invoking the
wrapped handler exactly when the authorizer does not trust the hex SHA-256
fingerprint of the first peer certificate; when it is trusted, the wrapped
handler runs on the request whose query string carries the verified
fingerprint under the key `fingerprint`. -/
theorem withAuth_403_iff_untrusted {α : Type} (trusts : String → Bool)
    (next : Request → α) (r : Request) (c : List Nat) (cs : List (List Nat))
    (h : r.peerCerts = c :: cs) :
    (Rpc.WithAuth (some trusts) next r = .forbidden ↔
      trusts (GetCertFingerprint c) = false)
    ∧ (trusts (GetCertFingerprint c) = true →
        Rpc.WithAuth (some trusts) next r =
          .handled (next { r with
            query := querySet r.query "fingerprint" (GetCertFingerprint c) })
        ∧ mapLookup (querySet r.query "fingerprint" (GetCertFingerprint c)) "fingerprint"
            = some (GetCertFingerprint c)) := by
  obtain ⟨pc, q⟩ := r
  simp only at h
  subst h
  constructor
  · by_cases ht : trusts (GetCertFingerprint c) = true
    · simp [Rpc.WithAuth, ht]
    · simp only [Bool.not_eq_true] at ht
      simp [Rpc.WithAuth, ht]
  · intro ht
    refine ⟨by simp [Rpc.WithAuth, ht], ?_⟩
    rw [querySet, mapLookup_mapInsert]
    simp

/-- Witness for C1: an all-trusting authorizer forwards to the wrapped
handler. -/
theorem withAuth_witness :
    Rpc.WithAuth (some fun _ => true) (fun _ => (0 : Nat)) ⟨[[1, 2, 3]], []⟩
      = .handled 0 :=
  ((withAuth_403_iff_untrusted (fun _ => true) (fun _ => (0 : Nat))
    ⟨[[1, 2, 3]], []⟩ [1, 2, 3] [] rfl).2 rfl).1

/-- The legacy `common.WithAuth` (`common/common.go` line 241) has the trust
test inverted: a trusted fingerprint is refused with 403 and an untrusted
one is forwarded. This generation was superseded by
`internal/rpc/middleware.go`, which C1 is proved about above. -/
theorem withAuthLegacy_inverts_trust :
    CommonPkg.WithAuth (some fun _ => true) (fun _ => (0 : Nat)) ⟨[[1, 2, 3]], []⟩
      = .forbidden
    ∧ CommonPkg.WithAuth (some fun _ => false) (fun _ => (0 : Nat)) ⟨[[1, 2, 3]], []⟩
      ≠ .forbidden := by
  constructor
  · rfl
  · intro h
    simp [CommonPkg.WithAuth] at h

/-! ## C7: inventory sync is a no-op at an unchanged SHA -/

/-- C7: when `git pull` succeeds and the pulled SHA equals the SHA of the
held inventory, `syncInventory` returns success with the state container
untouched — no `swap`, the held value (including `nodesByFingerprint`)
unchanged, no watcher bumped, and the node-metadata store unpruned; and
conversely the held inventory is replaced only when the SHA differs. -/
theorem syncInventory_noop_on_same_sha (pull : Except String String)
    (read : String → Except String ContainerSpec) (clusterFile : ClusterFile)
    (st : StateContainer (Option IndexedInventory)) (nms : List String)
    (sha : String) (cur : IndexedInventory)
    (h1 : pull = .ok sha) (h2 : st.get = some cur) :
    (cur.gitSHA = sha → syncInventory pull read clusterFile st nms = (st, nms, none))
    ∧ ((syncInventory pull read clusterFile st nms).1 ≠ st → cur.gitSHA ≠ sha) := by
  subst h1
  constructor
  · intro he
    simp [syncInventory, h2, he]
  · intro hne he
    exact absurd (by simp [syncInventory, h2, he]) hne

/-! ## C2: the kickstart label in the container-creation argv -/

theorem str_ne_of_getElem {a b : String} (i : Nat) (h : a.data[i]? ≠ b.data[i]?) :
    a ≠ b := fun e => h (by rw [e])

theorem append_ne_of_lit (pre rest b : String) (i : Nat)
    (hi : i < pre.data.length) (hne : pre.data[i]? ≠ b.data[i]?) : pre ++ rest ≠ b := by
  apply str_ne_of_getElem i
  rw [String.data_append, List.getElem?_append, if_pos hi]
  exact hne

theorem kickstartLabel_not_mem_head (c : ExpandedContainerSpec)
    (hname : c.spec.name ≠ kickstartLabel) : kickstartLabel ∉ podmanFlagsHead c := by
  intro hmem
  simp only [podmanFlagsHead, List.mem_cons, List.not_mem_nil, or_false] at hmem
  rcases hmem with h | h | h | h | h | h
  · exact absurd h (by decide)
  · exact absurd h (by decide)
  · exact absurd h (by decide)
  · exact hname h.symm
  · exact absurd h (by decide)
  · exact append_ne_of_lit "--label=recomposeHash=" c.spec.hash kickstartLabel 8
      (by decide) (by decide) h.symm

theorem kickstartLabel_not_mem_tail (c : ExpandedContainerSpec)
    (himg : c.spec.image ≠ kickstartLabel) (hcmd : kickstartLabel ∉ c.spec.command) :
    kickstartLabel ∉ podmanFlagsTail c := by
  intro hmem
  simp only [podmanFlagsTail, List.mem_append] at hmem
  rcases hmem with (((hm | hm) | hm) | hm) | hm
  · obtain ⟨p, _, hp⟩ := List.mem_map.mp hm
    exact append_ne_of_lit "--env=" (p.1.envVar ++ ("=" ++ p.2)) kickstartLabel 2
      (by decide) (by decide) hp
  · obtain ⟨p, _, hp⟩ := List.mem_map.mp hm
    exact append_ne_of_lit "--mount=type=bind,source="
      (p.2 ++ (",target=" ++ (p.1.path ++ ",readonly"))) kickstartLabel 2
      (by decide) (by decide) hp
  · rcases hc : c.mountIDs with _ | ⟨m, ms⟩
    · rw [hc] at hm
      simp at hm
    · rw [hc] at hm
      simp only [ne_eq, reduceCtorEq, not_false_iff, if_pos, List.mem_cons,
        List.not_mem_nil, or_false] at hm
      exact append_ne_of_lit "--label=recomposeMounts="
        (String.intercalate "," (m :: ms)) kickstartLabel 8
        (by decide) (by decide) hm.symm
  · simp only [List.mem_cons, List.not_mem_nil, or_false] at hm
    exact himg hm.symm
  · exact hcmd hm

theorem renderFlagLegacy_eq (key : String) (val : FlagVal) :
    renderFlagLegacy key val = (match val with
      | .scalar (.str s) =>
        if key = "restart" ∧ s ≠ "always" ∧ s ≠ "unless-stopped"
        then [kickstartLabel] else []
      | _ => []) ++ renderFlag key val := by
  cases val with
  | arr elems => rfl
  | scalar v => cases v <;> rfl

theorem kickstart_mem_flags_iff (flags : List (String × FlagVal))
    (hclean : ∀ kv ∈ flags, kickstartLabel ∉ renderFlag kv.1 kv.2) :
    (kickstartLabel ∈ flags.flatMap fun kv => renderFlagLegacy kv.1 kv.2) ↔
      ∃ v, ("restart", FlagVal.scalar (.str v)) ∈ flags
        ∧ v ≠ "always" ∧ v ≠ "unless-stopped" := by
  rw [List.mem_flatMap]
  constructor
  · rintro ⟨kv, hkv, hmem⟩
    rw [renderFlagLegacy_eq] at hmem
    rcases List.mem_append.mp hmem with hk | hk
    · obtain ⟨k, val⟩ := kv
      cases val with
      | arr elems => exact absurd hk (List.not_mem_nil _)
      | scalar v =>
        cases v with
        | str s =>
          simp only [] at hk
          by_cases hcond : k = "restart" ∧ s ≠ "always" ∧ s ≠ "unless-stopped"
          · refine ⟨s, ?_, hcond.2.1, hcond.2.2⟩
            rw [← hcond.1]
            exact hkv
          · rw [if_neg hcond] at hk
            exact absurd hk (List.not_mem_nil _)
        | int n => exact absurd hk (List.not_mem_nil _)
        | bool b => exact absurd hk (List.not_mem_nil _)
    · exact absurd hk (hclean kv hkv)
  · rintro ⟨v, hv, h1, h2⟩
    refine ⟨("restart", FlagVal.scalar (.str v)), hv, ?_⟩
    rw [renderFlagLegacy_eq]
    apply List.mem_append.mpr
    left
    show kickstartLabel ∈
      if ("restart" : String) = "restart" ∧ v ≠ "always" ∧ v ≠ "unless-stopped"
      then [kickstartLabel] else []
    rw [if_pos ⟨rfl, h1, h2⟩]
    exact List.mem_cons_self _ _

/-- C2 counterexample: in the current builder (`agent/podman.go` lines
215-242) the argv for a spec whose `restart` flag is the string `no` does
not contain `--label=kickstart=false`, contradicting the claim that it
must. -/
theorem getPodmanFlags_kickstart_counterexample :
    "--label=kickstart=false" ∉ AgentPodman.getPodmanFlags
      ⟨⟨"web", "h1", "nginx", [], [("restart", .scalar (.str "no"))], [], []⟩,
        [], [], []⟩ := by decide

/-- C2 amended: only the legacy builder (`agent/main.go` lines 363-395)
implements the kickstart rule: provided no unrelated argv source (name,
image, command word, or ordinary flag rendering) literally equals
`--label=kickstart=false`, its argv contains that argument exactly when the
flags map binds `restart` to a string that is neither `always` nor
`unless-stopped`; the current builder (`agent/podman.go` lines 215-242)
never emits it. -/
theorem getPodmanFlags_kickstart (c : ExpandedContainerSpec) (h : CleanSpec c) :
    (kickstartLabel ∈ AgentMain.getPodmanFlags c ↔
      ∃ v, ("restart", FlagVal.scalar (.str v)) ∈ c.spec.flags
        ∧ v ≠ "always" ∧ v ≠ "unless-stopped")
    ∧ kickstartLabel ∉ AgentPodman.getPodmanFlags c := by
  obtain ⟨hname, himg, hcmd, hflags⟩ := h
  have hhead := kickstartLabel_not_mem_head c hname
  have htail := kickstartLabel_not_mem_tail c himg hcmd
  constructor
  · rw [AgentMain.getPodmanFlags]
    constructor
    · intro hmem
      rcases List.mem_append.mp hmem with hm | hm
      · rcases List.mem_append.mp hm with hm2 | hm2
        · exact absurd hm2 hhead
        · exact (kickstart_mem_flags_iff c.spec.flags hflags).mp hm2
      · exact absurd hm htail
    · intro hex
      exact List.mem_append.mpr (Or.inl (List.mem_append.mpr
        (Or.inr ((kickstart_mem_flags_iff c.spec.flags hflags).mpr hex))))
  · rw [AgentPodman.getPodmanFlags]
    intro hmem
    rcases List.mem_append.mp hmem with hm | hm
    · rcases List.mem_append.mp hm with hm2 | hm2
      · exact absurd hm2 hhead
      · rw [List.mem_flatMap] at hm2
        obtain ⟨kv, hkv, hk⟩ := hm2
        exact absurd hk (hflags kv hkv)
    · exact absurd hm htail

/-- Witness for the amended C2 on the counterexample's spec: the legacy
argv carries the kickstart label, the current argv does not. -/
theorem getPodmanFlags_kickstart_witness :
    kickstartLabel ∈ AgentMain.getPodmanFlags
      ⟨⟨"web", "h1", "nginx", [], [("restart", .scalar (.str "no"))], [], []⟩, [], [], []⟩
    ∧ kickstartLabel ∉ AgentPodman.getPodmanFlags
      ⟨⟨"web", "h1", "nginx", [], [("restart", .scalar (.str "no"))], [], []⟩, [], [], []⟩ := by
  have h := getPodmanFlags_kickstart
    ⟨⟨"web", "h1", "nginx", [], [("restart", .scalar (.str "no"))], [], []⟩, [], [], []⟩
    (by refine ⟨by decide, by decide, by decide, ?_⟩
        intro kv hkv
        simp only [List.mem_cons, List.not_mem_nil, or_false] at hkv
        subst hkv
        decide)
  exact ⟨h.1.mpr ⟨"no", by decide, by decide, by decide⟩, h.2⟩

/-! ## C4: a converged reconciler pass mutates nothing -/

theorem cleanupMounts_noop (env : PodmanAction → Bool) (inUse : List String) :
    ∀ files : List String, (∀ f ∈ files, f ∈ inUse) →
      cleanupMounts env inUse files = ([], none) := by
  intro files
  induction files with
  | nil => intro _; rfl
  | cons f rest ih =>
    intro h
    have hf : f ∈ inUse := h f (List.mem_cons_self f rest)
    have hc : inUse.contains f = true := by
      simpa [List.contains] using List.elem_iff.mpr hf
    simp only [cleanupMounts, hc, if_pos rfl]
    exact ih fun g hg => h g (List.mem_cons_of_mem f hg)

/-- C4: when the observed set matches the goal set — every observed
container carries a non-empty `recomposeHash` that is the hash of some goal
spec and is not exited, every goal spec's hash is the `recomposeHash` of
some observed container, and every file in `mounts/` is referenced by some
observed container's `recomposeMounts` label — one `syncPodman` pass
performs no removal, no mount-file deletion, no start and no kickstart,
does not call `ReEnter`, and returns success. -/
theorem syncPodman_converged_noop (env : PodmanAction → Bool) (inv : NodeInventory)
    (observed : List PsOutput) (mountFiles : List String)
    (h1 : ∀ c ∈ observed, labelsGet c.labels "recomposeHash" ≠ ""
      ∧ (∃ s ∈ inv.containers, s.hash = labelsGet c.labels "recomposeHash")
      ∧ c.exited = false)
    (h2 : ∀ s ∈ inv.containers, ∃ c ∈ observed,
      labelsGet c.labels "recomposeHash" = s.hash)
    (h3 : ∀ f ∈ mountFiles,
      f ∈ observed.flatMap fun c => goSplit (labelsGet c.labels "recomposeMounts") ',') :
    syncPodman env (some inv) observed mountFiles = ⟨[], false, none⟩ := by
  have hrm : (buildIndex (fun c : PsOutput => labelsGet c.labels "recomposeHash") observed).find?
      (fun kv => !(kv.1 != "" &&
        (mapLookup (buildIndex (fun c : ContainerSpec => c.hash) inv.containers) kv.1).isSome))
      = none := by
    rw [List.find?_eq_none]
    intro kv hkv
    rcases mem_buildIndex _ observed [] kv hkv with h | ⟨hmem, hkey⟩
    · exact absurd h (List.not_mem_nil kv)
    obtain ⟨hne, hex, _⟩ := h1 kv.2 hmem
    have hs : (mapLookup (buildIndex (fun c : ContainerSpec => c.hash) inv.containers)
        (labelsGet kv.2.labels "recomposeHash")).isSome = true :=
      (buildIndex_lookup_isSome _ _ _).mpr hex
    rw [hkey]
    simp [hs, hne]
  have hclean : cleanupMounts env
      (observed.flatMap fun c => goSplit (labelsGet c.labels "recomposeMounts") ',')
      mountFiles = ([], none) := cleanupMounts_noop env _ mountFiles h3
  have hstart : (buildIndex (fun c : ContainerSpec => c.hash) inv.containers).findSome?
      (fun kv => startLoopAction
        (buildIndex (fun c : PsOutput => labelsGet c.labels "recomposeHash") observed) kv.2)
      = none := by
    rw [List.findSome?_eq_none_iff]
    intro kv hkv
    rcases mem_buildIndex _ inv.containers [] kv hkv with h | ⟨hmem, hkey⟩
    · exact absurd h (List.not_mem_nil kv)
    obtain ⟨c0, hc0mem, hc0lab⟩ := h2 kv.2 hmem
    obtain ⟨e, he⟩ := Option.isSome_iff_exists.mp
      ((buildIndex_lookup_isSome (fun c : PsOutput => labelsGet c.labels "recomposeHash")
        observed kv.2.hash).mpr ⟨c0, hc0mem, hc0lab⟩)
    have heprops := buildIndex_lookup_some _ _ _ _ he
    have hexited : e.exited = false := (h1 e heprops.1).2.2
    unfold startLoopAction
    rw [he]
    simp [hexited]
  simp only [syncPodman]
  rw [hrm, hclean, hstart]

/-- Witness for C4 on a concrete converged node: one goal container,
observed running with its hash label, one in-use mount file. -/
theorem syncPodman_converged_witness :
    syncPodman (fun _ => true)
      (some ⟨"sha", [⟨"web", "h1", "nginx", [], [], [], []⟩]⟩)
      [⟨["web"], [("recomposeHash", "h1"), ("recomposeMounts", "m1")], false⟩]
      ["m1"]
      = ⟨[], false, none⟩ :=
  syncPodman_converged_noop (fun _ => true)
    ⟨"sha", [⟨"web", "h1", "nginx", [], [], [], []⟩]⟩
    [⟨["web"], [("recomposeHash", "h1"), ("recomposeMounts", "m1")], false⟩]
    ["m1"] (by decide) (by decide) (by decide)

/-! ## C6: readContainerSpec -/

/-- C6: a successful `readContainerSpec` returns a spec whose `hash` is the
lowercase hex MD5 of the file's bytes and whose `name` is the file's base
name with its extension removed; and any successful read of a file with the
same bytes yields the same hash. -/
theorem readContainerSpec_hash_and_name (fs : String → Option (List Nat))
    (decode : List Nat → Option ContainerSpec) (file : String) (bytes : List Nat)
    (spec : ContainerSpec) (hfs : fs file = some bytes)
    (hok : readContainerSpec fs decode file = .ok spec) :
    spec.hash = hexOfBytes (md5Bytes bytes)
    ∧ spec.name = String.mk ((pathBase file).data.take
        ((pathBase file).data.length - (pathExt (pathBase file)).data.length))
    ∧ ∀ (fs2 : String → Option (List Nat)) (decode2 : List Nat → Option ContainerSpec)
        (file2 : String) (spec2 : ContainerSpec), fs2 file2 = some bytes →
        readContainerSpec fs2 decode2 file2 = .ok spec2 → spec2.hash = spec.hash := by
  unfold readContainerSpec at hok
  rw [hfs] at hok
  simp only [] at hok
  cases hd : decode bytes with
  | none => rw [hd] at hok; exact absurd hok (by simp)
  | some d =>
    rw [hd] at hok
    simp only [Except.ok.injEq] at hok
    subst hok
    refine ⟨rfl, rfl, ?_⟩
    intro fs2 decode2 file2 spec2 hfs2 hok2
    unfold readContainerSpec at hok2
    rw [hfs2] at hok2
    simp only [] at hok2
    cases hd2 : decode2 bytes with
    | none => rw [hd2] at hok2; exact absurd hok2 (by simp)
    | some d2 =>
      rw [hd2] at hok2
      simp only [Except.ok.injEq] at hok2
      subst hok2
      rfl

set_option maxRecDepth 16384 in
/-- Witness for C6 on a concrete one-line spec file. -/
theorem readContainerSpec_witness :
    ∃ spec, readContainerSpec (fun _ => some (strBytes "image = \"nginx\"\n"))
        (fun _ => some ⟨"", "", "nginx", [], [], [], []⟩) "containers/web.toml"
        = Except.ok spec
      ∧ spec.hash = hexOfBytes (md5Bytes (strBytes "image = \"nginx\"\n"))
      ∧ spec.name = "web" := by
  obtain ⟨spec, hok⟩ : ∃ s, readContainerSpec (fun _ => some (strBytes "image = \"nginx\"\n"))
      (fun _ => some ⟨"", "", "nginx", [], [], [], []⟩) "containers/web.toml"
      = Except.ok s := ⟨_, rfl⟩
  have h := readContainerSpec_hash_and_name _ _ _ _ spec rfl hok
  exact ⟨spec, hok, h.1, h.2.1.trans (by decide)⟩

/-! ## C8: readInventory skips unreadable container files -/

theorem readNodeContainers_spec (read : String → Except String ContainerSpec) :
    ∀ (paths : List String) (memo : List (String × ContainerSpec)),
      (∀ p c, mapLookup memo p = some c → read p = .ok c) →
      (readNodeContainers read paths memo).1
        = paths.filterMap (fun p => (read p).toOption)
      ∧ ∀ p c, mapLookup (readNodeContainers read paths memo).2 p = some c →
          read p = .ok c := by
  intro paths
  induction paths with
  | nil => intro memo hm; exact ⟨rfl, hm⟩
  | cons path rest ih =>
    intro memo hm
    cases hlk : mapLookup memo path with
    | some c =>
      have hr : read path = Except.ok c := hm path c hlk
      have htoo : (read path).toOption = some c := by rw [hr]; rfl
      obtain ⟨hfst, hsnd⟩ := ih memo hm
      rcases hrec : readNodeContainers read rest memo with ⟨cs, m⟩
      rw [hrec] at hfst hsnd
      simp only [] at hfst hsnd
      have hstep : readNodeContainers read (path :: rest) memo = (c :: cs, m) := by
        simp only [readNodeContainers, hlk, hrec]
      rw [hstep]
      constructor
      · show c :: cs = _
        simp only [List.filterMap_cons, htoo]
        rw [hfst]
      · exact hsnd
    | none =>
      cases hr : read path with
      | error e =>
        have htoo : (read path).toOption = none := by rw [hr]; rfl
        obtain ⟨hfst, hsnd⟩ := ih memo hm
        have hstep : readNodeContainers read (path :: rest) memo
            = readNodeContainers read rest memo := by
          simp only [readNodeContainers, hlk, hr]
        rw [hstep]
        simp only [List.filterMap_cons, htoo]
        exact ⟨hfst, hsnd⟩
      | ok c =>
        have hm2 : ∀ p c2, mapLookup (mapInsert memo path c) p = some c2 →
            read p = .ok c2 := by
          intro p c2 hl2
          rw [mapLookup_mapInsert] at hl2
          by_cases hp : p = path
          · rw [if_pos hp] at hl2
            cases hl2
            rw [hp]
            exact hr
          · rw [if_neg hp] at hl2
            exact hm p c2 hl2
        have htoo : (read path).toOption = some c := by rw [hr]; rfl
        obtain ⟨hfst, hsnd⟩ := ih (mapInsert memo path c) hm2
        rcases hrec : readNodeContainers read rest (mapInsert memo path c) with ⟨cs, m⟩
        rw [hrec] at hfst hsnd
        simp only [] at hfst hsnd
        have hstep : readNodeContainers read (path :: rest) memo = (c :: cs, m) := by
          simp only [readNodeContainers, hlk, hr, hrec]
        rw [hstep]
        constructor
        · show c :: cs = _
          simp only [List.filterMap_cons, htoo]
          rw [hfst]
        · exact hsnd

theorem readInventoryNodes_spec (read : String → Except String ContainerSpec)
    (sha : String) :
    ∀ (nodes : List NodeSpec) (acc : List (String × NodeInventory))
      (memo : List (String × ContainerSpec)),
      (∀ p c, mapLookup memo p = some c → read p = .ok c) →
      readInventoryNodes read sha nodes acc memo
        = nodes.foldl (fun a node =>
            if node.fingerprint = "" then a
            else mapInsert a node.fingerprint
              ⟨sha, node.containers.filterMap fun p => (read p).toOption⟩) acc := by
  intro nodes
  induction nodes with
  | nil => intro acc memo hm; rfl
  | cons node rest ih =>
    intro acc memo hm
    by_cases hfp : node.fingerprint = ""
    · simp only [readInventoryNodes, if_pos hfp, List.foldl_cons]
      exact ih acc memo hm
    · obtain ⟨h1, h2⟩ := readNodeContainers_spec read node.containers memo hm
      rcases hrec : readNodeContainers read node.containers memo with ⟨cs, memo2⟩
      rw [hrec] at h1 h2
      simp only [] at h1 h2
      have hstep : readInventoryNodes read sha (node :: rest) acc memo
          = readInventoryNodes read sha rest
              (mapInsert acc node.fingerprint ⟨sha, cs⟩) memo2 := by
        simp only [readInventoryNodes, if_neg hfp, hrec]
      rw [hstep, h1]
      simp only [List.foldl_cons]
      simp only [if_neg hfp]
      exact ih _ memo2 h2

/-- C8: on a decoded cluster.toml, `readInventory` (memoized, skipping each
container file whose open or decode fails) succeeds and produces exactly the
direct per-node construction `readInventorySpec`: each node with a non-empty
fingerprint keeps precisely its readable containers in order, other nodes
and the client set are unaffected by any single file's failure, and the
metadata pruning keeps exactly the surviving fingerprints. -/
theorem readInventory_skips_unreadable (read : String → Except String ContainerSpec)
    (cluster : ClusterSpec) (sha : String) (nms : List String) :
    readInventory read (.parsed cluster) sha nms
      = .ok (readInventorySpec read cluster sha nms) := by
  have hm : ∀ p c, mapLookup ([] : List (String × ContainerSpec)) p = some c →
      read p = .ok c := by
    intro p c h
    simp [mapLookup] at h
  unfold readInventory readInventorySpec
  simp only []
  rw [readInventoryNodes_spec read sha cluster.nodes [] [] hm]

/-- Witness for C8: one node referencing a readable and an unreadable file
keeps exactly the readable container and the sync still succeeds. -/
theorem readInventory_skips_unreadable_example :
    readInventory
      (fun p => if p = "bad.toml" then .error "boom"
        else .ok ⟨"app", "h1", "img", [], [], [], []⟩)
      (.parsed ⟨[⟨"fp1", ["good.toml", "bad.toml"]⟩], [⟨"cfp"⟩]⟩) "sha" ["fp1", "gone"]
      = .ok (⟨"sha", [("fp1", ⟨"sha", [⟨"app", "h1", "img", [], [], [], []⟩]⟩)], ["cfp"]⟩,
          ["fp1"]) := by
  rw [readInventory_skips_unreadable]
  rfl

/-- Witness for C7 at a concrete held inventory and matching SHA. -/
theorem syncInventory_noop_witness :
    syncInventory (.ok "abc") (fun _ => .error "x") .missing
      ⟨some ⟨"abc", [], []⟩, [(0, 0)]⟩ ["fp"]
      = (⟨some ⟨"abc", [], []⟩, [(0, 0)]⟩, ["fp"], none) :=
  (syncInventory_noop_on_same_sha (.ok "abc") (fun _ => .error "x") .missing
    ⟨some ⟨"abc", [], []⟩, [(0, 0)]⟩ ["fp"] "abc" ⟨"abc", [], []⟩ rfl rfl).1 rfl

end Recompose
